import Mathlib

/-!
Verification of `src/AnalyzeProtein.c` against its specification.

Shallow embedding conventions:
* C `float` arithmetic is idealized as exact arithmetic: coordinate values are
  rationals (`ℚ`), and the square roots taken by the code live in `ℝ`
  (`Real.sqrt`).  Rounding behaviour of IEEE floats is outside the model.
* The fixed buffer `float fileAtoms[MAX_ATOMS][COORDINATES]` is modelled as a
  total map `ℕ → Atom` together with the running `atomCounter`; a ghost field
  `writes` records the row indices written by `parseLine`, so that buffer
  bounds can be analysed (the C code performs no bounds check).
* The libc routine `strtof` is external to the repository; it is modelled as
  an oracle parameter `Strtof` returning the parsed value together with two
  observations the C code makes about the conversion: whether the end pointer
  advanced past the input (`consumed`, i.e. `end != input`) and whether the
  conversion set `errno` (`errnoSet`, the code zeroes `errno` beforehand).
* `exit(EXIT_FAILURE)` is modelled by `Except.error`: a fatal error aborts
  processing and no statistics are produced.
* One input file is a list of lines (`List Char` each), as delivered by the
  read loop of `main`.
-/

namespace AnalyzeProtein

/-- A line of input text, as handed to the classifier by the read loop. -/
abbrev Line := List Char

/-- An atom: one coordinate triple, mirroring one row
`fileAtoms[i][0..2]` of the C store. -/
structure Atom where
  x : ℚ
  y : ℚ
  z : ℚ
deriving DecidableEq

/-- Mirrors `#define MAX_ATOMS 20000`. -/
def MAX_ATOMS : ℕ := 20000

/-- Mirrors `#define MIN_LINE_LEN 60`. -/
def MIN_LINE_LEN : ℕ := 60

/-- Mirrors `#define LINE_STARTER "ATOM  "`. -/
def LINE_STARTER : List Char := "ATOM  ".toList

/-- Mirrors `#define LINE_STARTER_LEN 6`. -/
def LINE_STARTER_LEN : ℕ := 6

/-- Model of `strncmp(a, b, n) == 0`: C strings are compared character by
character for at most `n` positions; the end of a list plays the role of the
terminating null byte, so a string that ends strictly before the other within
the first `n` positions compares unequal. -/
def strncmpEq : List Char → List Char → ℕ → Bool
  | _, _, 0 => true
  | [], [], _ + 1 => true
  | [], _ :: _, _ + 1 => false
  | _ :: _, [], _ + 1 => false
  | a :: as, b :: bs, n + 1 => a == b && strncmpEq as bs n

/-- Mirrors `startsWith` (line 126): `strncmp(line, LINE_STARTER, LINE_STARTER_LEN) == 0`. -/
def startsWith (line : Line) : Bool :=
  strncmpEq line LINE_STARTER LINE_STARTER_LEN

/-- The observations the C code makes about one `strtof` call: the returned
value, whether the end pointer moved past the start of the input
(`consumed`, i.e. `end != input`), and whether the call set `errno`. -/
structure StrtofResult where
  value : ℚ
  consumed : Bool
  errnoSet : Bool
deriving DecidableEq

/-- Oracle model of the libc conversion `strtof`, which is external to the
repository: a function from the text of a field to the conversion outcome. -/
def Strtof := Line → StrtofResult

/-- The fatal errors of the modelled fragment of `main`/`getFloat`:
an `ATOM` line that is too short (line 93), a coordinate conversion failure
(line 178), and the post-loop zero-atom check (line 103). -/
inductive FatalError where
  | shortLine (len : ℕ)
  | convError (field : Line)
  | zeroAtoms
deriving DecidableEq

/-- The error test of `getFloat` (line 176):
`result == 0 && (errno != 0 || end == input)`. -/
def getFloatErrCond (r : StrtofResult) : Bool :=
  decide (r.value = 0) && (r.errnoSet || !r.consumed)

/-- Mirrors `getFloat` (lines 170-182): convert a field with `strtof`; on the
error condition print a message and `exit(EXIT_FAILURE)`, otherwise return the
converted value. -/
def getFloat (f : Strtof) (input : Line) : Except FatalError ℚ :=
  if getFloatErrCond (f input) then .error (.convError input) else .ok (f input).value

/-- The three fixed-width field extractions and conversions of `parseLine`
(lines 143-157): `memcpy` of `COORDINATE_LEN = 8` bytes from offsets 30, 38
and 46, each converted by `getFloat`.  A failed conversion aborts the whole
run, so the partially written row is unobservable and the three stores are
modelled as one atomic row value. -/
def parseAtom (f : Strtof) (fileLine : Line) : Except FatalError Atom := do
  let xv ← getFloat f ((fileLine.drop 30).take 8)
  let yv ← getFloat f ((fileLine.drop 38).take 8)
  let zv ← getFloat f ((fileLine.drop 46).take 8)
  return ⟨xv, yv, zv⟩

/-- Mirrors `parseLine` (lines 141-161): parse the three coordinate fields and
store them in row `atomCounter` of the atom array. -/
def parseLine (f : Strtof) (fileLine : Line) (atomCounter : ℕ) (fileAtoms : ℕ → Atom) :
    Except FatalError (ℕ → Atom) :=
  (parseAtom f fileLine).map (Function.update fileAtoms atomCounter)

/-- Per-file processing state of `main`: the atom array, the running
`atomCounter`, and a ghost trace `writes` of the row indices `parseLine` has
written (used only to analyse buffer bounds; it does not influence control
flow or data). -/
structure FileState where
  buf : ℕ → Atom
  counter : ℕ
  writes : List ℕ

/-- One iteration of the read loop of `main` (lines 81-99): classify the
line; if classified, either parse it (when `strlen(fileLine) > MIN_LINE_LEN`)
and increment the counter, or abort with the short-line error; otherwise
ignore the line. -/
def processLine (f : Strtof) (line : Line) (st : FileState) : Except FatalError FileState :=
  if startsWith line then
    if MIN_LINE_LEN < line.length then
      match parseLine f line st.counter st.buf with
      | .error e => .error e
      | .ok buf2 => .ok ⟨buf2, st.counter + 1, st.writes ++ [st.counter]⟩
    else .error (.shortLine line.length)
  else .ok st

/-- The whole read loop of `main` over the lines of one file. -/
def processFile (f : Strtof) : List Line → FileState → Except FatalError FileState
  | [], st => .ok st
  | line :: rest, st =>
    match processLine f line st with
    | .error e => .error e
    | .ok st2 => processFile f rest st2

/-- Mirrors `calDistance` (lines 225-229): the SQUARED Euclidean distance
between two coordinate triples (no square root is taken here). -/
def calDistance (xCor1 yCor1 zCor1 xCor2 yCor2 zCor2 : ℚ) : ℚ :=
  (xCor1 - xCor2) * (xCor1 - xCor2) + ((yCor1 - yCor2) * (yCor1 - yCor2))
    + ((zCor1 - zCor2) * (zCor1 - zCor2))

/-- Mirrors `calCenterOfGravity` (lines 194-210): sum each coordinate over
rows `0 .. atomCounter-1` and divide each sum by `atomCounter`. -/
def calCenterOfGravity (atomCounter : ℕ) (fileAtoms : ℕ → Atom) : Atom :=
  let s := (List.range atomCounter).foldl
    (fun (acc : ℚ × ℚ × ℚ) i =>
      (acc.1 + (fileAtoms i).x, acc.2.1 + (fileAtoms i).y, acc.2.2 + (fileAtoms i).z))
    (0, 0, 0)
  ⟨s.1 / atomCounter, s.2.1 / atomCounter, s.2.2 / atomCounter⟩

/-- The accumulation loop of `calRotationRadious` (lines 249-254): the sum of
`calDistance(gravityCenter, fileAtoms[i])` (squared distances) over all rows. -/
def rotationSumSq (atomCounter : ℕ) (fileAtoms : ℕ → Atom) (gravityCenter : Atom) : ℚ :=
  (List.range atomCounter).foldl
    (fun s i => s + calDistance gravityCenter.x gravityCenter.y gravityCenter.z
      (fileAtoms i).x (fileAtoms i).y (fileAtoms i).z) 0

/-- Mirrors `calRotationRadious` (lines 241-258): the single square root of
the accumulated squared distances divided by the atom count. -/
noncomputable def calRotationRadious (atomCounter : ℕ) (fileAtoms : ℕ → Atom)
    (gravityCenter : Atom) : ℝ :=
  Real.sqrt ((rotationSumSq atomCounter fileAtoms gravityCenter / atomCounter : ℚ) : ℝ)

/-- Mirrors `calMaxDistance` (lines 268-291): outer loop `i` from `0` to
`atomCounter - 2`, inner loop `j` from `1` to `atomCounter - 1`, maximising
`sqrt(calDistance(fileAtoms[i], fileAtoms[j]))` starting from `0.0`. -/
noncomputable def calMaxDistance (atomCounter : ℕ) (fileAtoms : ℕ → Atom) : ℝ :=
  (List.range (atomCounter - 1)).foldl
    (fun maxDistance i =>
      ((List.range (atomCounter - 1)).map (fun j => j + 1)).foldl
        (fun m j => max m (Real.sqrt ((calDistance (fileAtoms i).x (fileAtoms i).y
          (fileAtoms i).z (fileAtoms j).x (fileAtoms j).y (fileAtoms j).z : ℚ) : ℝ)))
        maxDistance)
    0

/-- Modelled from the spec: the Euclidean distance `d` between two coordinate
triples (section 4.4 defines `d` as Euclidean distance and the helper
`calDistance` as its square).  This is the spec-side definition, written from
the spec words and used to compare the source computations against the
specified formulas. -/
noncomputable def euclidDist (a b : Atom) : ℝ :=
  Real.sqrt (((a.x : ℝ) - (b.x : ℝ)) ^ 2 + ((a.y : ℝ) - (b.y : ℝ)) ^ 2
    + ((a.z : ℝ) - (b.z : ℝ)) ^ 2)

/-- The set of Euclidean distances realised by unordered pairs of distinct
store positions `i < j < n`. -/
def pairSet (n : ℕ) (buf : ℕ → Atom) : Set ℝ :=
  {d | ∃ i j, i < j ∧ j < n ∧ d = euclidDist (buf i) (buf j)}

/-- The three statistics printed for one file, in program order
(lines 110-112): center of gravity, radius of gyration (computed from that
center), maximum pairwise distance. -/
noncomputable def fileStats (atomCounter : ℕ) (fileAtoms : ℕ → Atom) : Atom × ℝ × ℝ :=
  (calCenterOfGravity atomCounter fileAtoms,
   calRotationRadious atomCounter fileAtoms (calCenterOfGravity atomCounter fileAtoms),
   calMaxDistance atomCounter fileAtoms)

/-- Everything `main` prints for one file after the read loop: the atom count
and the three statistics. -/
noncomputable def statsOf (st : FileState) : ℕ × Atom × ℝ × ℝ :=
  (st.counter, fileStats st.counter st.buf)

/-- Per-file behaviour of `main` (lines 73-112): reset the counter, run the
read loop, apply the zero-atom check of line 101, then compute and print the
statistics.  (The `feof` half of the line-101 check concerns the I/O stream
and is outside the model.) -/
noncomputable def runFile (f : Strtof) (lines : List Line) (buf0 : ℕ → Atom) :
    Except FatalError (ℕ × Atom × ℝ × ℝ) :=
  match processFile f lines ⟨buf0, 0, []⟩ with
  | .error e => .error e
  | .ok st => if st.counter = 0 then .error .zeroAtoms else .ok (statsOf st)

/-- Relation between two per-file states that differ only in buffer content
beyond the current counter: equal counters, equal write traces, and equal
buffer rows below the counter.  This is the coupling invariant showing that
residue left in the reused buffer by earlier files cannot influence a later
file. -/
def StRel (s t : FileState) : Prop :=
  s.counter = t.counter ∧ s.writes = t.writes ∧ ∀ i < s.counter, s.buf i = t.buf i

/-- Lift a state relation to `Except` outcomes: both fail with the same fatal
error, or both succeed with related states. -/
def ExceptRel (R : FileState → FileState → Prop) :
    Except FatalError FileState → Except FatalError FileState → Prop
  | .error e1, .error e2 => e1 = e2
  | .ok s, .ok t => R s t
  | .error _, .ok _ => False
  | .ok _, .error _ => False

/-! ### Concrete inputs used by the witnesses -/

/-- The zero atom. -/
def atomZ : Atom := ⟨0, 0, 0⟩

/-- A buffer filled with zero atoms. -/
def buf0 : ℕ → Atom := fun _ => atomZ

/-- An oracle describing a `strtof` call that parses the value `1` and
consumes digits without touching `errno`. -/
def strtof1 : Strtof := fun _ => ⟨1, true, false⟩

/-- An oracle describing a `strtof` call that consumes digits and returns
exactly `0` with `errno` set, as glibc does for a complete underflow such as
the 8-byte field `"1e-9999 "`. -/
def strtofUnderflow : Strtof := fun _ => ⟨0, true, true⟩

/-- An 8-byte coordinate field whose numeric value underflows `float`. -/
def field0 : Line := "1e-9999 ".toList

/-- A classified line of exactly 60 characters. -/
def line60 : Line := "ATOM  ".toList ++ List.replicate 54 'X'

/-- A classified line of 61 characters (long enough for the code to parse). -/
def line61 : Line := "ATOM  ".toList ++ List.replicate 55 'X'

/-- A line that does not start with the `"ATOM  "` marker. -/
def lineH : Line := "HETATM".toList ++ List.replicate 55 'X'

/-- The pristine per-file state: zeroed buffer, counter `0`, no writes. -/
def st0 : FileState := ⟨buf0, 0, []⟩

/-- A two-atom buffer: `(0,0,0)` at row 0 and `(2,0,0)` at row 1. -/
def bufC3 : ℕ → Atom := fun i => if i = 0 then ⟨0, 0, 0⟩ else ⟨2, 0, 0⟩

/-- A two-atom buffer holding `(1,2,3)` then `(4,5,6)`. -/
def bufA : ℕ → Atom := fun i => if i = 0 then ⟨1, 2, 3⟩ else ⟨4, 5, 6⟩

/-- The same two atoms as `bufA`, in the opposite order. -/
def bufB : ℕ → Atom := fun i => if i = 0 then ⟨4, 5, 6⟩ else ⟨1, 2, 3⟩

/-! ### Generic fold lemmas -/

/-- Two folds over the same list agree when the step functions agree on the
list's elements. -/
theorem foldl_congr_fun {α β : Type _} (l : List α) (f g : β → α → β)
    (h : ∀ b a, a ∈ l → f b a = g b a) : ∀ b : β, l.foldl f b = l.foldl g b := by
  induction l with
  | nil => intro b; rfl
  | cons x t ih =>
    intro b
    rw [List.foldl_cons, List.foldl_cons, h b x (List.mem_cons_self x t)]
    exact ih (fun b a ha => h b a (List.mem_cons_of_mem _ ha)) _

/-- The initial accumulator is a lower bound of a `max`-fold. -/
theorem foldl_max_init_le : ∀ (l : List ℝ) (a : ℝ), a ≤ l.foldl max a := by
  intro l
  induction l with
  | nil => intro a; exact le_refl a
  | cons x t ih =>
    intro a
    exact le_trans (le_max_left a x) (ih (max a x))

/-- Every list element is a lower bound of a `max`-fold. -/
theorem foldl_max_le_of_mem {x : ℝ} : ∀ {l : List ℝ}, x ∈ l → ∀ a : ℝ, x ≤ l.foldl max a := by
  intro l
  induction l with
  | nil => intro h; cases h
  | cons y t ih =>
    intro h a
    rcases List.mem_cons.mp h with rfl | hx
    · exact le_trans (le_max_right a x) (foldl_max_init_le t (max a x))
    · exact ih hx (max a y)

/-- A `max`-fold returns either its initial accumulator or a list element. -/
theorem foldl_max_eq_or_mem : ∀ (l : List ℝ) (a : ℝ), l.foldl max a = a ∨ l.foldl max a ∈ l := by
  intro l
  induction l with
  | nil => intro a; exact Or.inl rfl
  | cons y t ih =>
    intro a
    rcases ih (max a y) with h | h
    · rw [List.foldl_cons, h]
      rcases max_choice a y with h' | h'
      · exact Or.inl h'
      · exact Or.inr (by rw [h']; exact List.mem_cons_self y t)
    · exact Or.inr (List.mem_cons_of_mem _ h)

/-- The initial accumulator is a lower bound of a nested `max`-fold. -/
theorem nestedMax_init_le (vals : ℕ → List ℝ) :
    ∀ (I : List ℕ) (a : ℝ), a ≤ I.foldl (fun m k => (vals k).foldl max m) a := by
  intro I
  induction I with
  | nil => intro a; exact le_refl a
  | cons i t ih =>
    intro a
    exact le_trans (foldl_max_init_le (vals i) a) (ih _)

/-- Every inner-list element reached by the index list bounds a nested
`max`-fold from below. -/
theorem nestedMax_le_of_mem (vals : ℕ → List ℝ) :
    ∀ (I : List ℕ) (a : ℝ) (i : ℕ) (x : ℝ), i ∈ I → x ∈ vals i →
      x ≤ I.foldl (fun m k => (vals k).foldl max m) a := by
  intro I
  induction I with
  | nil => intro a i x hi; cases hi
  | cons i0 t ih =>
    intro a i x hi hx
    rcases List.mem_cons.mp hi with rfl | hi'
    · exact le_trans (foldl_max_le_of_mem hx a) (nestedMax_init_le vals t _)
    · exact ih _ i x hi' hx

/-- A nested `max`-fold returns either its initial accumulator or an element
of one of the inner lists. -/
theorem nestedMax_eq_or_mem (vals : ℕ → List ℝ) :
    ∀ (I : List ℕ) (a : ℝ),
      I.foldl (fun m k => (vals k).foldl max m) a = a ∨
      ∃ i ∈ I, I.foldl (fun m k => (vals k).foldl max m) a ∈ vals i := by
  intro I
  induction I with
  | nil => intro a; exact Or.inl rfl
  | cons i0 t ih =>
    intro a
    rcases ih ((vals i0).foldl max a) with h | ⟨i, hi, hmem⟩
    · rw [List.foldl_cons, h]
      rcases foldl_max_eq_or_mem (vals i0) a with h' | h'
      · exact Or.inl h'
      · exact Or.inr ⟨i0, List.mem_cons_self i0 t, h'⟩
    · exact Or.inr ⟨i, List.mem_cons_of_mem _ hi, hmem⟩

/-- A fold that maximises `f` of each element equals a plain `max`-fold over
the mapped list. -/
theorem foldl_max_map {α : Type _} (f : α → ℝ) :
    ∀ (l : List α) (a : ℝ), l.foldl (fun m x => max m (f x)) a = (l.map f).foldl max a := by
  intro l
  induction l with
  | nil => intro a; rfl
  | cons x t ih =>
    intro a
    rw [List.foldl_cons, List.map_cons, List.foldl_cons]
    exact ih _

/-- The three-accumulator fold of `calCenterOfGravity` computes the three
coordinate sums over the first `n` rows. -/
theorem cg_fold_range (buf : ℕ → Atom) : ∀ n : ℕ,
    (List.range n).foldl
      (fun (acc : ℚ × ℚ × ℚ) i => (acc.1 + (buf i).x, acc.2.1 + (buf i).y, acc.2.2 + (buf i).z))
      (0, 0, 0)
    = (((List.range n).map (fun i => (buf i).x)).sum,
       ((List.range n).map (fun i => (buf i).y)).sum,
       ((List.range n).map (fun i => (buf i).z)).sum) := by
  intro n
  induction n with
  | zero => simp
  | succ n ih =>
    rw [List.range_succ, List.foldl_append, ih]
    simp [add_comm]

/-- `calCenterOfGravity` in closed form: coordinatewise sums over the first
`n` rows, each divided by `n`. -/
theorem calCenterOfGravity_eq (n : ℕ) (buf : ℕ → Atom) :
    calCenterOfGravity n buf =
      ⟨((List.range n).map (fun i => (buf i).x)).sum / n,
       ((List.range n).map (fun i => (buf i).y)).sum / n,
       ((List.range n).map (fun i => (buf i).z)).sum / n⟩ := by
  unfold calCenterOfGravity
  rw [cg_fold_range]

/-- `rotationSumSq` in closed form: the list sum of the squared distances from
the gravity center to each of the first `n` rows. -/
theorem rotationSumSq_eq (n : ℕ) (buf : ℕ → Atom) (g : Atom) :
    rotationSumSq n buf g =
      ((List.range n).map
        (fun i => calDistance g.x g.y g.z (buf i).x (buf i).y (buf i).z)).sum := by
  unfold rotationSumSq
  induction n with
  | zero => simp
  | succ n ih =>
    rw [List.range_succ, List.foldl_append, ih]
    simp [add_comm]

/-! ### Euclidean distance versus `calDistance` -/

/-- `calDistance` is nonnegative: it is a sum of squares. -/
theorem calDistance_nonneg (x1 y1 z1 x2 y2 z2 : ℚ) :
    0 ≤ calDistance x1 y1 z1 x2 y2 z2 := by
  unfold calDistance
  have hx := mul_self_nonneg (x1 - x2)
  have hy := mul_self_nonneg (y1 - y2)
  have hz := mul_self_nonneg (z1 - z2)
  linarith

/-- The real cast of `calDistance` is the square of the Euclidean distance. -/
theorem calDistance_cast (a b : Atom) :
    ((calDistance a.x a.y a.z b.x b.y b.z : ℚ) : ℝ) = euclidDist a b ^ 2 := by
  unfold euclidDist
  rw [Real.sq_sqrt (by positivity)]
  unfold calDistance
  push_cast
  ring

/-- The square root the code takes of `calDistance` is exactly the Euclidean
distance. -/
theorem sqrt_calDistance (a b : Atom) :
    Real.sqrt ((calDistance a.x a.y a.z b.x b.y b.z : ℚ) : ℝ) = euclidDist a b := by
  unfold euclidDist
  congr 1
  unfold calDistance
  push_cast
  ring

/-- Euclidean distance is symmetric. -/
theorem euclidDist_symm (a b : Atom) : euclidDist a b = euclidDist b a := by
  unfold euclidDist
  congr 1
  ring

/-- The Euclidean distance from an atom to itself is zero. -/
theorem euclidDist_self (a : Atom) : euclidDist a a = 0 := by
  simp [euclidDist]

/-- Euclidean distance is nonnegative. -/
theorem euclidDist_nonneg (a b : Atom) : 0 ≤ euclidDist a b :=
  Real.sqrt_nonneg _

/-! ### Characterisation of `calMaxDistance` -/

/-- `calMaxDistance` rewritten as a nested `max`-fold over lists of Euclidean
distances: outer indices `0 .. n-2`, inner indices `1 .. n-1`. -/
theorem calMaxDistance_eq_nested (n : ℕ) (buf : ℕ → Atom) :
    calMaxDistance n buf =
      (List.range (n - 1)).foldl
        (fun m k =>
          (((List.range (n - 1)).map (fun j => j + 1)).map
            (fun j => euclidDist (buf k) (buf j))).foldl max m)
        0 := by
  unfold calMaxDistance
  apply foldl_congr_fun
  intro m i _
  rw [show (((List.range (n - 1)).map (fun j => j + 1)).foldl
      (fun m j => max m (Real.sqrt ((calDistance (buf i).x (buf i).y (buf i).z
        (buf j).x (buf j).y (buf j).z : ℚ) : ℝ))) m)
      = (((List.range (n - 1)).map (fun j => j + 1)).foldl
      (fun m j => max m (euclidDist (buf i) (buf j))) m) from
    foldl_congr_fun _ _ _ (fun b a _ => by rw [sqrt_calDistance]) m]
  exact foldl_max_map (fun j => euclidDist (buf i) (buf j)) _ m

/-- `calMaxDistance` is an upper bound of all unordered pairwise distances. -/
theorem calMaxDistance_ub (n : ℕ) (buf : ℕ → Atom) :
    calMaxDistance n buf ∈ upperBounds (pairSet n buf) := by
  rintro d ⟨i, j, hij, hjn, rfl⟩
  rw [calMaxDistance_eq_nested]
  refine nestedMax_le_of_mem _ _ _ i _ ?_ ?_
  · exact List.mem_range.mpr (by omega)
  · refine List.mem_map.mpr ⟨j, ?_, rfl⟩
    exact List.mem_map.mpr ⟨j - 1, List.mem_range.mpr (by omega), by omega⟩

/-- `calMaxDistance` is nonnegative (the scan starts from `0.0`). -/
theorem calMaxDistance_nonneg (n : ℕ) (buf : ℕ → Atom) :
    0 ≤ calMaxDistance n buf := by
  rw [calMaxDistance_eq_nested]
  exact nestedMax_init_le _ _ 0

/-- With fewer than two atoms both loops are empty and `calMaxDistance` is the
initial `0.0`. -/
theorem calMaxDistance_of_lt_two (n : ℕ) (buf : ℕ → Atom) (h : n < 2) :
    calMaxDistance n buf = 0 := by
  have h1 : n - 1 = 0 := by omega
  unfold calMaxDistance
  rw [h1]
  rfl

/-- For `n ≥ 2`, `calMaxDistance` attains a distance of some unordered pair
of store positions. -/
theorem calMaxDistance_mem (n : ℕ) (buf : ℕ → Atom) (h2 : 2 ≤ n) :
    calMaxDistance n buf ∈ pairSet n buf := by
  have hzero : calMaxDistance n buf = 0 → calMaxDistance n buf ∈ pairSet n buf := by
    intro h0
    have h01 : euclidDist (buf 0) (buf 1) ∈ pairSet n buf :=
      ⟨0, 1, by omega, by omega, rfl⟩
    have hle := calMaxDistance_ub n buf h01
    have heq : euclidDist (buf 0) (buf 1) = 0 :=
      le_antisymm (h0 ▸ hle) (euclidDist_nonneg _ _)
    exact ⟨0, 1, by omega, by omega, by rw [h0, heq]⟩
  have hnest := calMaxDistance_eq_nested n buf
  rcases nestedMax_eq_or_mem
      (fun k => ((List.range (n - 1)).map (fun j => j + 1)).map
        (fun j => euclidDist (buf k) (buf j)))
      (List.range (n - 1)) 0 with h0 | ⟨i, hiI, hmem⟩
  · exact hzero (by rw [hnest, h0])
  · rw [← hnest] at hmem
    obtain ⟨j, hjJ, hji⟩ := List.mem_map.mp hmem
    obtain ⟨j0, hj0, rfl⟩ := List.mem_map.mp hjJ
    have hi : i < n - 1 := List.mem_range.mp hiI
    have hj0n : j0 < n - 1 := List.mem_range.mp hj0
    rcases lt_trichotomy i (j0 + 1) with hlt | heq | hgt
    · exact ⟨i, j0 + 1, hlt, by omega, hji.symm⟩
    · refine hzero ?_
      rw [← hji, ← heq, euclidDist_self]
    · exact ⟨j0 + 1, i, hgt, by omega, by rw [← hji, euclidDist_symm]⟩

/-- For `n ≥ 2`, `calMaxDistance` is THE greatest unordered pairwise
Euclidean distance, despite the inner loop starting at `j = 1`. -/
theorem calMaxDistance_isGreatest (n : ℕ) (buf : ℕ → Atom) (h2 : 2 ≤ n) :
    IsGreatest (pairSet n buf) (calMaxDistance n buf) :=
  ⟨calMaxDistance_mem n buf h2, calMaxDistance_ub n buf⟩

/-! ### Permutation invariance machinery -/

/-- Two positions `i < j` of a list yield a two-element sublist. -/
theorem pair_sublist {α : Type _} :
    ∀ (l : List α) (i j : ℕ) (hi : i < l.length) (hj : j < l.length), i < j →
      List.Sublist [l[i], l[j]] l := by
  intro l
  induction l with
  | nil => intro i j hi _ _; simp at hi
  | cons a t ih =>
    intro i j hi hj hij
    cases i with
    | zero =>
      cases j with
      | zero => omega
      | succ j =>
        simp only [List.getElem_cons_zero, List.getElem_cons_succ]
        exact List.Sublist.cons₂ a (List.singleton_sublist.mpr (List.getElem_mem _))
    | succ i =>
      cases j with
      | zero => omega
      | succ j =>
        simp only [List.getElem_cons_succ]
        refine List.Sublist.cons a (ih i j ?_ ?_ (by omega))
        · simpa using hi
        · simpa using hj

/-- A two-element sublist comes from two positions `i < j` of the list. -/
theorem sublist_pair_positions {α : Type _} :
    ∀ (l : List α) (u v : α), List.Sublist [u, v] l →
      ∃ (i j : ℕ) (hi : i < l.length) (hj : j < l.length),
        i < j ∧ l[i] = u ∧ l[j] = v := by
  intro l
  induction l with
  | nil => intro u v h; simp at h
  | cons a t ih =>
    intro u v h
    cases h with
    | cons _ h' =>
      obtain ⟨i, j, hi, hj, hij, hu, hv⟩ := ih u v h'
      refine ⟨i + 1, j + 1, by simpa using hi, by simpa using hj, by omega, ?_, ?_⟩
      · simpa using hu
      · simpa using hv
    | cons₂ _ h' =>
      have hvm := List.singleton_sublist.mp h'
      obtain ⟨j, hj, hvj⟩ := List.mem_iff_getElem.mp hvm
      refine ⟨0, j + 1, by simp, by simpa using hj, by omega, by simp, ?_⟩
      simpa using hvj

/-- A list that is a permutation of a pair is one of the two orderings of the
pair. -/
theorem perm_pair {α : Type _} {l : List α} {x y : α} (h : l.Perm [x, y]) :
    l = [x, y] ∨ l = [y, x] := by
  have hlen : l.length = 2 := by simpa using h.length_eq
  cases l with
  | nil => simp at hlen
  | cons u t =>
    cases t with
    | nil => simp at hlen
    | cons v t2 =>
      cases t2 with
      | cons w t3 => simp at hlen
      | nil =>
        have hu : u ∈ [x, y] := h.subset (by simp)
        rcases List.mem_cons.mp hu with rfl | hu'
        · have hv : v = y := by
            have := List.perm_singleton.mp h.cons_inv
            simpa using this
          exact Or.inl (by rw [hv])
        · have hu2 : u = y := by simpa using hu'
          subst hu2
          have h2 : ([u, v] : List α).Perm [u, x] := h.trans (List.Perm.swap u x [])
          have hv : v = x := by
            have := List.perm_singleton.mp h2.cons_inv
            simpa using this
          exact Or.inr (by rw [hv])

/-- Membership in `pairSet` is a statement about two-element subpermutations
of the list of stored atoms, which makes it permutation invariant. -/
theorem mem_pairSet_iff (n : ℕ) (buf : ℕ → Atom) (d : ℝ) :
    d ∈ pairSet n buf ↔
      ∃ p q : Atom, List.Subperm [p, q] ((List.range n).map buf) ∧ d = euclidDist p q := by
  constructor
  · rintro ⟨i, j, hij, hjn, rfl⟩
    have hi : i < ((List.range n).map buf).length := by simp; omega
    have hj : j < ((List.range n).map buf).length := by simp; omega
    have hs := pair_sublist ((List.range n).map buf) i j hi hj hij
    have hvi : ((List.range n).map buf)[i] = buf i := by simp
    have hvj : ((List.range n).map buf)[j] = buf j := by simp
    rw [hvi, hvj] at hs
    exact ⟨buf i, buf j, hs.subperm, rfl⟩
  · rintro ⟨p, q, hsub, rfl⟩
    obtain ⟨l', hperm, hsl⟩ := hsub
    rcases perm_pair hperm with h' | h' <;> subst h'
    · obtain ⟨i, j, hi, hj, hij, hu, hv⟩ := sublist_pair_positions _ p q hsl
      have hu' : buf i = p := by simpa using hu
      have hv' : buf j = q := by simpa using hv
      refine ⟨i, j, hij, by simpa using hj, ?_⟩
      rw [hu', hv']
    · obtain ⟨i, j, hi, hj, hij, hu, hv⟩ := sublist_pair_positions _ q p hsl
      have hu' : buf i = q := by simpa using hu
      have hv' : buf j = p := by simpa using hv
      refine ⟨i, j, hij, by simpa using hj, ?_⟩
      rw [hu', hv', euclidDist_symm]

/-- Permuting the stored atoms leaves `pairSet` unchanged. -/
theorem pairSet_perm {n m : ℕ} {b1 b2 : ℕ → Atom}
    (h : ((List.range n).map b1).Perm ((List.range m).map b2)) :
    pairSet n b1 = pairSet m b2 := by
  ext d
  rw [mem_pairSet_iff, mem_pairSet_iff]
  constructor
  · rintro ⟨p, q, hs, hd⟩
    exact ⟨p, q, hs.trans h.subperm, hd⟩
  · rintro ⟨p, q, hs, hd⟩
    exact ⟨p, q, hs.trans h.symm.subperm, hd⟩

/-- `calMaxDistance` is invariant under permutation of the stored atoms. -/
theorem calMaxDistance_perm {n m : ℕ} {b1 b2 : ℕ → Atom}
    (h : ((List.range n).map b1).Perm ((List.range m).map b2)) :
    calMaxDistance n b1 = calMaxDistance m b2 := by
  have hnm : n = m := by simpa using h.length_eq
  subst hnm
  by_cases h2 : 2 ≤ n
  · have hg2 : IsGreatest (pairSet n b1) (calMaxDistance n b2) := by
      rw [pairSet_perm h]
      exact calMaxDistance_isGreatest n b2 h2
    exact (calMaxDistance_isGreatest n b1 h2).unique hg2
  · rw [calMaxDistance_of_lt_two n b1 (by omega), calMaxDistance_of_lt_two n b2 (by omega)]

/-- `calCenterOfGravity` is invariant under permutation of the stored atoms. -/
theorem calCenterOfGravity_perm {n m : ℕ} {b1 b2 : ℕ → Atom}
    (h : ((List.range n).map b1).Perm ((List.range m).map b2)) :
    calCenterOfGravity n b1 = calCenterOfGravity m b2 := by
  have hnm : n = m := by simpa using h.length_eq
  subst hnm
  rw [calCenterOfGravity_eq, calCenterOfGravity_eq]
  have hx : ((List.range n).map (fun i => (b1 i).x)).sum
      = ((List.range n).map (fun i => (b2 i).x)).sum := by
    simpa [List.map_map, Function.comp] using (h.map Atom.x).sum_eq
  have hy : ((List.range n).map (fun i => (b1 i).y)).sum
      = ((List.range n).map (fun i => (b2 i).y)).sum := by
    simpa [List.map_map, Function.comp] using (h.map Atom.y).sum_eq
  have hz : ((List.range n).map (fun i => (b1 i).z)).sum
      = ((List.range n).map (fun i => (b2 i).z)).sum := by
    simpa [List.map_map, Function.comp] using (h.map Atom.z).sum_eq
  rw [hx, hy, hz]

/-- `rotationSumSq` is invariant under permutation of the stored atoms. -/
theorem rotationSumSq_perm {n m : ℕ} {b1 b2 : ℕ → Atom} (g : Atom)
    (h : ((List.range n).map b1).Perm ((List.range m).map b2)) :
    rotationSumSq n b1 g = rotationSumSq m b2 g := by
  have hnm : n = m := by simpa using h.length_eq
  subst hnm
  rw [rotationSumSq_eq, rotationSumSq_eq]
  simpa [List.map_map, Function.comp] using
    (h.map (fun a => calDistance g.x g.y g.z a.x a.y a.z)).sum_eq

/-- All three per-file statistics are invariant under permutation of the
stored atoms. -/
theorem fileStats_perm {n m : ℕ} {b1 b2 : ℕ → Atom}
    (h : ((List.range n).map b1).Perm ((List.range m).map b2)) :
    fileStats n b1 = fileStats m b2 := by
  have hnm : n = m := by simpa using h.length_eq
  subst hnm
  have hcg := calCenterOfGravity_perm h
  unfold fileStats
  rw [hcg, calMaxDistance_perm h]
  unfold calRotationRadious
  rw [rotationSumSq_perm (calCenterOfGravity n b2) h]

/-! ### The reducers read only the first `atomCounter` rows -/

/-- Buffers agreeing below `n` produce the same mapped prefix. -/
theorem map_range_congr {n : ℕ} {b1 b2 : ℕ → Atom} (h : ∀ i < n, b1 i = b2 i) :
    (List.range n).map b1 = (List.range n).map b2 :=
  List.map_congr_left (fun i hi => h i (List.mem_range.mp hi))

/-- `calCenterOfGravity` depends only on the first `n` rows of the buffer. -/
theorem calCenterOfGravity_congr {n : ℕ} {b1 b2 : ℕ → Atom}
    (h : ∀ i < n, b1 i = b2 i) : calCenterOfGravity n b1 = calCenterOfGravity n b2 :=
  calCenterOfGravity_perm (by rw [map_range_congr h])

/-- `rotationSumSq` depends only on the first `n` rows of the buffer. -/
theorem rotationSumSq_congr {n : ℕ} {b1 b2 : ℕ → Atom} (g : Atom)
    (h : ∀ i < n, b1 i = b2 i) : rotationSumSq n b1 g = rotationSumSq n b2 g :=
  rotationSumSq_perm g (by rw [map_range_congr h])

/-- `calMaxDistance` depends only on the first `n` rows of the buffer. -/
theorem calMaxDistance_congr {n : ℕ} {b1 b2 : ℕ → Atom}
    (h : ∀ i < n, b1 i = b2 i) : calMaxDistance n b1 = calMaxDistance n b2 :=
  calMaxDistance_perm (by rw [map_range_congr h])

/-- All three statistics depend only on the first `n` rows of the buffer. -/
theorem fileStats_congr {n : ℕ} {b1 b2 : ℕ → Atom}
    (h : ∀ i < n, b1 i = b2 i) : fileStats n b1 = fileStats n b2 :=
  fileStats_perm (by rw [map_range_congr h])

/-! ### The per-file loop as a relation-preserving machine -/

/-- One loop iteration preserves the coupling invariant: two states that agree
on counter, write trace and buffer rows below the counter either fail with
the same error or step to states that again agree. -/
theorem processLine_rel (f : Strtof) (line : Line) {s t : FileState} (h : StRel s t) :
    ExceptRel StRel (processLine f line s) (processLine f line t) := by
  obtain ⟨b1, c1, w1⟩ := s
  obtain ⟨b2, c2, w2⟩ := t
  obtain ⟨hc, hw, hb⟩ := h
  simp only at hc hw hb
  subst hc
  subst hw
  unfold processLine
  by_cases hsw : startsWith line
  · rw [if_pos hsw, if_pos hsw]
    by_cases hlen : MIN_LINE_LEN < line.length
    · rw [if_pos hlen, if_pos hlen]
      unfold parseLine
      cases hpa : parseAtom f line with
      | error e => simp [Except.map, hpa, ExceptRel]
      | ok v =>
        simp only [Except.map, hpa]
        refine ⟨rfl, rfl, ?_⟩
        intro i hi
        simp only at hi
        rcases Nat.lt_succ_iff_lt_or_eq.mp hi with hi' | rfl
        · show Function.update b1 c1 v i = Function.update b2 c1 v i
          rw [Function.update_noteq (by omega), Function.update_noteq (by omega)]
          exact hb i hi'
        · show Function.update b1 i v i = Function.update b2 i v i
          rw [Function.update_same, Function.update_same]
    · rw [if_neg hlen, if_neg hlen]
      rfl
  · rw [if_neg hsw, if_neg hsw]
    exact ⟨rfl, rfl, hb⟩

/-- The whole read loop preserves the coupling invariant. -/
theorem processFile_rel (f : Strtof) :
    ∀ (lines : List Line) {s t : FileState}, StRel s t →
      ExceptRel StRel (processFile f lines s) (processFile f lines t) := by
  intro lines
  induction lines with
  | nil => intro s t h; exact h
  | cons line rest ih =>
    intro s t h
    have hpl := processLine_rel f line h
    unfold processFile
    cases h1 : processLine f line s with
    | error e =>
      cases h2 : processLine f line t with
      | error e2 =>
        rw [h1, h2] at hpl
        exact hpl
      | ok t2 =>
        rw [h1, h2] at hpl
        exact absurd hpl (fun hf => hf)
    | ok s2 =>
      cases h2 : processLine f line t with
      | error e2 =>
        rw [h1, h2] at hpl
        exact absurd hpl (fun hf => hf)
      | ok t2 =>
        rw [h1, h2] at hpl
        exact ih hpl

/-- Related states print the same atom count and statistics. -/
theorem statsOf_congr {s t : FileState} (h : StRel s t) : statsOf s = statsOf t := by
  obtain ⟨hc, _, hb⟩ := h
  unfold statsOf
  rw [hc]
  rw [fileStats_congr (n := t.counter) (fun i hi => hb i (by omega))]

/-! ### Write-trace invariant: rows are written at `0, 1, 2, ...` -/

/-- One loop iteration preserves the invariant that the write trace equals
`List.range` of the counter. -/
theorem processLine_writes (f : Strtof) (line : Line) {st st2 : FileState}
    (hw : st.writes = List.range st.counter)
    (h : processLine f line st = .ok st2) : st2.writes = List.range st2.counter := by
  unfold processLine at h
  by_cases hsw : startsWith line
  · rw [if_pos hsw] at h
    by_cases hlen : MIN_LINE_LEN < line.length
    · rw [if_pos hlen] at h
      cases hpa : parseLine f line st.counter st.buf with
      | error e => rw [hpa] at h; cases h
      | ok b2 =>
        rw [hpa] at h
        cases h
        simp only
        rw [hw, List.range_succ]
    · rw [if_neg hlen] at h
      cases h
  · rw [if_neg hsw] at h
    cases h
    exact hw

/-- The read loop preserves the write-trace invariant. -/
theorem processFile_writes (f : Strtof) :
    ∀ (lines : List Line) {st st2 : FileState}, st.writes = List.range st.counter →
      processFile f lines st = .ok st2 → st2.writes = List.range st2.counter := by
  intro lines
  induction lines with
  | nil =>
    intro st st2 hw h
    cases h
    exact hw
  | cons line rest ih =>
    intro st st2 hw h
    unfold processFile at h
    cases h1 : processLine f line st with
    | error e => rw [h1] at h; cases h
    | ok stm =>
      rw [h1] at h
      exact ih (processLine_writes f line hw h1) h

/-- A successful `runFile` means the zero-atom check passed, so the atom
count is at least one. -/
theorem runFile_ok_pos (f : Strtof) (lines : List Line) (b0 : ℕ → Atom)
    (out : ℕ × Atom × ℝ × ℝ) (h : runFile f lines b0 = .ok out) : 1 ≤ out.1 := by
  cases hp : processFile f lines ⟨b0, 0, []⟩ with
  | error e =>
    have h' : (Except.error e : Except FatalError (ℕ × Atom × ℝ × ℝ)) = .ok out := by
      rw [← h]; unfold runFile; rw [hp]
    cases h'
  | ok st =>
    have h' : (if st.counter = 0 then (Except.error FatalError.zeroAtoms :
        Except FatalError (ℕ × Atom × ℝ × ℝ)) else .ok (statsOf st)) = .ok out := by
      rw [← h]; unfold runFile; rw [hp]
    by_cases h0 : st.counter = 0
    · rw [if_pos h0] at h'; cases h'
    · rw [if_neg h0] at h'
      cases h'
      simpa [statsOf] using Nat.one_le_iff_ne_zero.mpr h0

/-! ### Remaining helpers -/

/-- The classifier accepts exactly the lines whose first six characters are
the `"ATOM  "` marker. -/
theorem startsWith_iff (line : Line) :
    startsWith line = true ↔ line.take 6 = LINE_STARTER := by
  have hm : LINE_STARTER = ['A', 'T', 'O', 'M', ' ', ' '] := rfl
  rw [hm]
  rcases line with _ | ⟨c0, _ | ⟨c1, _ | ⟨c2, _ | ⟨c3, _ | ⟨c4, _ | ⟨c5, rest⟩⟩⟩⟩⟩⟩ <;>
    simp [startsWith, hm, LINE_STARTER_LEN, strncmpEq, List.take, and_assoc]

/-- Casting a rational list sum to the reals is the sum of the casts. -/
theorem cast_list_sum : ∀ l : List ℚ, ((l.sum : ℚ) : ℝ) = (l.map (fun q : ℚ => (q : ℝ))).sum := by
  intro l
  induction l with
  | nil => simp
  | cons x t ih => simp [ih]

/-- `calRotationRadious` in the spec's form: the root of the mean squared
Euclidean distance from the atoms to the gravity center. -/
theorem calRotationRadious_eq (n : ℕ) (buf : ℕ → Atom) (g : Atom) :
    calRotationRadious n buf g =
      Real.sqrt ((((List.range n).map (fun i => euclidDist (buf i) g ^ 2)).sum) / (n : ℝ)) := by
  have hnum : ((((List.range n).map
        (fun i => calDistance g.x g.y g.z (buf i).x (buf i).y (buf i).z)).sum : ℚ) : ℝ)
      = ((List.range n).map (fun i => euclidDist (buf i) g ^ 2)).sum := by
    rw [cast_list_sum, List.map_map]
    refine congrArg List.sum (List.map_congr_left ?_)
    intro i _
    show ((calDistance g.x g.y g.z (buf i).x (buf i).y (buf i).z : ℚ) : ℝ)
      = euclidDist (buf i) g ^ 2
    rw [calDistance_cast g (buf i), euclidDist_symm]
  unfold calRotationRadious
  rw [rotationSumSq_eq, Rat.cast_div, hnum, Rat.cast_natCast]

/-- The outcome of one file run does not depend on the initial buffer
content: varying the residue of previously processed files changes nothing. -/
theorem runFile_congr (f : Strtof) (lines : List Line) (b1 b2 : ℕ → Atom) :
    runFile f lines b1 = runFile f lines b2 := by
  have h0 : StRel ⟨b1, 0, []⟩ ⟨b2, 0, []⟩ :=
    ⟨rfl, rfl, fun i hi => absurd hi (Nat.not_lt_zero i)⟩
  have hrel := processFile_rel f lines h0
  cases h1 : processFile f lines ⟨b1, 0, []⟩ with
  | error e =>
    cases h2 : processFile f lines ⟨b2, 0, []⟩ with
    | error e2 =>
      rw [h1, h2] at hrel
      have he : e = e2 := hrel
      have q1 : runFile f lines b1 = .error e := by unfold runFile; rw [h1]
      have q2 : runFile f lines b2 = .error e2 := by unfold runFile; rw [h2]
      rw [q1, q2, he]
    | ok t =>
      rw [h1, h2] at hrel
      exact hrel.elim
  | ok s =>
    cases h2 : processFile f lines ⟨b2, 0, []⟩ with
    | error e2 =>
      rw [h1, h2] at hrel
      exact hrel.elim
    | ok t =>
      rw [h1, h2] at hrel
      have hR : StRel s t := hrel
      have q1 : runFile f lines b1
          = (if s.counter = 0 then .error .zeroAtoms else .ok (statsOf s)) := by
        unfold runFile; rw [h1]
      have q2 : runFile f lines b2
          = (if t.counter = 0 then .error .zeroAtoms else .ok (statsOf t)) := by
        unfold runFile; rw [h2]
      rw [q1, q2, hR.1, statsOf_congr hR]

/-! ### Claims -/

/-- C1: for every completed store with `n ≥ 1` atoms, the Center of Gravity
has components equal to the arithmetic means `(Σx/n, Σy/n, Σz/n)` of the
stored coordinates, and the division by `n` is safe because a successful
per-file run passes the zero-atom check, guaranteeing `n ≥ 1`. -/
theorem claim_C1 :
    (∀ (n : ℕ) (buf : ℕ → Atom), 1 ≤ n →
      calCenterOfGravity n buf =
        ⟨((List.range n).map (fun i => (buf i).x)).sum / n,
         ((List.range n).map (fun i => (buf i).y)).sum / n,
         ((List.range n).map (fun i => (buf i).z)).sum / n⟩) ∧
    (∀ (f : Strtof) (lines : List Line) (b : ℕ → Atom) (out : ℕ × Atom × ℝ × ℝ),
      runFile f lines b = .ok out → 1 ≤ out.1) :=
  ⟨fun n buf _ => calCenterOfGravity_eq n buf, runFile_ok_pos⟩

/-- Witness for C1: the two-atom store `(0,0,0), (2,0,0)` has center of
gravity `(1,0,0)`, and a concrete successful one-line run reports a positive
atom count. -/
theorem claim_C1_witness :
    calCenterOfGravity 2 bufC3 = ⟨1, 0, 0⟩ ∧
    1 ≤ (statsOf ⟨Function.update buf0 0 ⟨1, 1, 1⟩, 1, [0]⟩).1 := by
  constructor
  · have h := claim_C1.1 2 bufC3 (by norm_num)
    rw [h]
    norm_num [bufC3, List.range_succ]
  · exact claim_C1.2 strtof1 [line61] buf0 _ rfl

/-- C2: the radius of gyration printed for a completed store equals
`sqrt((Σ d(atom, g)²) / n)` with `d` the Euclidean distance, and the per-atom
quantity the code sums before its single square root (`calDistance`) is the
squared Euclidean distance. -/
theorem claim_C2 :
    ∀ (n : ℕ) (buf : ℕ → Atom) (g : Atom),
      (1 ≤ n → calRotationRadious n buf g =
        Real.sqrt ((((List.range n).map (fun i => euclidDist (buf i) g ^ 2)).sum) / (n : ℝ))) ∧
      (∀ a b : Atom, ((calDistance a.x a.y a.z b.x b.y b.z : ℚ) : ℝ) = euclidDist a b ^ 2) :=
  fun n buf g => ⟨fun _ => calRotationRadious_eq n buf g, calDistance_cast⟩

/-- Witness for C2 at the one-atom store of zero atoms. -/
theorem claim_C2_witness :
    1 ≤ 1 ∧ calRotationRadious 1 buf0 atomZ =
      Real.sqrt ((((List.range 1).map (fun i => euclidDist (buf0 i) atomZ ^ 2)).sum)
        / ((1 : ℕ) : ℝ)) :=
  ⟨le_refl 1, (claim_C2 1 buf0 atomZ).1 (le_refl 1)⟩

/-- C3: for a completed store with `n ≥ 2` atoms the printed `Dmax` is the
greatest Euclidean distance over all unordered pairs of store positions (the
loop bounds `i ≤ n-2`, `j ≥ 1` still cover every unordered pair), and for a
store with fewer than 2 atoms `Dmax = 0`. -/
theorem claim_C3 : ∀ (n : ℕ) (buf : ℕ → Atom),
    (2 ≤ n → IsGreatest (pairSet n buf) (calMaxDistance n buf)) ∧
    (n < 2 → calMaxDistance n buf = 0) :=
  fun n buf => ⟨calMaxDistance_isGreatest n buf, calMaxDistance_of_lt_two n buf⟩

/-- Witness for C3 at the two-atom store `(0,0,0), (2,0,0)`. -/
theorem claim_C3_witness :
    2 ≤ 2 ∧ IsGreatest (pairSet 2 bufC3) (calMaxDistance 2 bufC3) :=
  ⟨le_refl 2, (claim_C3 2 bufC3).1 (le_refl 2)⟩

/-- Counterexample to C4 as stated: this classified line is exactly 60
characters long — "at least 60 characters" — yet the code aborts with the
short-line error instead of parsing it, because the check is
`strlen(fileLine) > MIN_LINE_LEN`. -/
theorem claim_C4_counterexample :
    startsWith line60 = true ∧ line60.length = 60 ∧
      processLine strtof1 line60 st0 = .error (.shortLine 60) := by
  refine ⟨by decide, by decide, ?_⟩
  rfl

/-- C4 (amended): a line that passes the classifier is parsed and appended
only when it is strictly longer than 60 characters (at least 61); a
classified line of 60 or fewer characters aborts the program with the
short-line error naming the line's length. -/
theorem claim_C4 : ∀ (f : Strtof) (line : Line) (st : FileState),
    startsWith line = true →
      (MIN_LINE_LEN < line.length →
        processLine f line st = (parseLine f line st.counter st.buf).map
          (fun b => ⟨b, st.counter + 1, st.writes ++ [st.counter]⟩)) ∧
      (line.length ≤ MIN_LINE_LEN →
        processLine f line st = .error (.shortLine line.length)) := by
  intro f line st hsw
  constructor
  · intro hlen
    unfold processLine
    rw [if_pos hsw, if_pos hlen]
    cases hp : parseLine f line st.counter st.buf with
    | error e => rfl
    | ok b2 => rfl
  · intro hlen
    unfold processLine
    rw [if_pos hsw, if_neg (by omega : ¬MIN_LINE_LEN < line.length)]

/-- Witness for C4 (amended) at a 61-character classified line. -/
theorem claim_C4_witness :
    startsWith line61 = true ∧ MIN_LINE_LEN < line61.length ∧
      processLine strtof1 line61 st0 = (parseLine strtof1 line61 st0.counter st0.buf).map
        (fun b => ⟨b, st0.counter + 1, st0.writes ++ [st0.counter]⟩) := by
  refine ⟨by decide, by decide, ?_⟩
  exact (claim_C4 strtof1 line61 st0 (by decide)).1 (by decide)

/-- Counterexample to C5 as stated: a conversion that consumes digits and
returns exactly `0` with `errno` set (glibc `strtof` on the underflowing
8-byte field `"1e-9999 "`) satisfies neither of the claim's two error
conditions — the field holds a parseable number and digits were consumed —
yet `getFloat` aborts instead of returning the parsed value `0`, because the
code also tests `errno != 0`. -/
theorem claim_C5_counterexample :
    (strtofUnderflow field0).consumed = true ∧
    ¬((strtofUnderflow field0).value = 0 ∧ (strtofUnderflow field0).consumed = false) ∧
    getFloat strtofUnderflow field0 = .error (.convError field0) := by
  refine ⟨rfl, by decide, ?_⟩
  rfl

/-- C5 (amended): `getFloat` aborts exactly when the conversion returns
`0` while either `errno` was set by the conversion or no digits were
consumed; in every other case the parsed value is returned.  (Whitespace
tolerance inside the field is a property of the external `strtof` oracle.) -/
theorem claim_C5 : ∀ (f : Strtof) (input : Line),
    (getFloat f input = .error (.convError input) ↔ getFloatErrCond (f input) = true) ∧
    (getFloatErrCond (f input) = false → getFloat f input = .ok (f input).value) := by
  intro f input
  constructor
  · by_cases h : getFloatErrCond (f input)
    · simp [getFloat, h]
    · simp [getFloat, h]
  · intro h
    simp [getFloat, h]

/-- Witness for C5 (amended) at a successful conversion. -/
theorem claim_C5_witness :
    getFloatErrCond (strtof1 field0) = false ∧
      getFloat strtof1 field0 = .ok (strtof1 field0).value :=
  ⟨by decide, (claim_C5 strtof1 field0).2 (by decide)⟩

/-- C6: the classifier is a pure predicate returning true exactly when the
line's first six characters are the marker `"ATOM  "` (trailing spaces
included), and a line failing it is ignored: the loop state — store, counter
and write trace — is unchanged. -/
theorem claim_C6 : ∀ (line : Line) (f : Strtof) (st : FileState),
    (startsWith line = true ↔ line.take 6 = LINE_STARTER) ∧
    (startsWith line = false → processLine f line st = .ok st) := by
  intro line f st
  refine ⟨startsWith_iff line, ?_⟩
  intro h
  unfold processLine
  rw [if_neg (by simp [h])]

/-- Witness for C6 at a `"HETATM"` line. -/
theorem claim_C6_witness :
    startsWith lineH = false ∧ processLine strtof1 lineH st0 = .ok st0 := by
  refine ⟨by decide, ?_⟩
  exact (claim_C6 lineH strtof1 st0).2 (by decide)

/-- C7: on a classified line, `parseLine` extracts exactly the three 8-byte
substrings at offsets 30, 38 and 46, converts them to numbers as x, y, z,
and appends the triple at the row given by the current atom counter (all
other rows unchanged, as expressed by `Function.update`). -/
theorem claim_C7 : ∀ (f : Strtof) (line : Line) (cnt : ℕ) (buf : ℕ → Atom),
    getFloatErrCond (f ((line.drop 30).take 8)) = false →
    getFloatErrCond (f ((line.drop 38).take 8)) = false →
    getFloatErrCond (f ((line.drop 46).take 8)) = false →
    parseLine f line cnt buf = .ok (Function.update buf cnt
      ⟨(f ((line.drop 30).take 8)).value,
       (f ((line.drop 38).take 8)).value,
       (f ((line.drop 46).take 8)).value⟩) := by
  intro f line cnt buf hx hy hz
  simp only [parseLine, parseAtom, getFloat, hx, hy, hz, Bool.false_eq_true, if_false]
  rfl

/-- Witness for C7 at a concrete line and oracle. -/
theorem claim_C7_witness :
    getFloatErrCond (strtof1 ((line61.drop 30).take 8)) = false ∧
    parseLine strtof1 line61 0 buf0 = .ok (Function.update buf0 0
      ⟨(strtof1 ((line61.drop 30).take 8)).value,
       (strtof1 ((line61.drop 38).take 8)).value,
       (strtof1 ((line61.drop 46).take 8)).value⟩) :=
  ⟨by decide, claim_C7 strtof1 line61 0 buf0 (by decide) (by decide) (by decide)⟩

/-- C8: the three per-file statistics are invariant under permutation of the
stored atoms — two stores holding the same multiset of atoms in different
orders produce identical Cg, Rg and Dmax. -/
theorem claim_C8 : ∀ (n m : ℕ) (b1 b2 : ℕ → Atom),
    ((List.range n).map b1).Perm ((List.range m).map b2) →
    fileStats n b1 = fileStats m b2 :=
  fun _ _ _ _ h => fileStats_perm h

/-- Witness for C8 at a two-atom store and its reversal. -/
theorem claim_C8_witness :
    ((List.range 2).map bufA).Perm ((List.range 2).map bufB) ∧
    fileStats 2 bufA = fileStats 2 bufB := by
  have e1 : (List.range 2).map bufA = [⟨1, 2, 3⟩, ⟨4, 5, 6⟩] := rfl
  have e2 : (List.range 2).map bufB = [⟨4, 5, 6⟩, ⟨1, 2, 3⟩] := rfl
  have hp : ((List.range 2).map bufA).Perm ((List.range 2).map bufB) := by
    rw [e1, e2]
    exact List.Perm.swap (⟨4, 5, 6⟩ : Atom) (⟨1, 2, 3⟩ : Atom) []
  exact ⟨hp, claim_C8 2 2 bufA bufB hp⟩

/-- C9: the per-file outcome — error, atom count and all printed statistics —
is independent of the initial content of the reused buffer: the counter is
reset to zero at the start of each file and the reducers read only the first
`atomCounter` rows, so residue from previously processed files cannot leak. -/
theorem claim_C9 : ∀ (f : Strtof) (lines : List Line) (b1 b2 : ℕ → Atom),
    runFile f lines b1 = runFile f lines b2 :=
  fun f lines b1 b2 => runFile_congr f lines b1 b2

/-- C10: the program performs no capacity check on the store: on a successful
run the rows written are exactly `0, ..., atomCounter - 1`, so every write is
within the `MAX_ATOMS` bounds precisely when the file yields at most
`MAX_ATOMS` atom records, and a file yielding more makes `parseLine` write at
row `MAX_ATOMS`, past the array's capacity. -/
theorem claim_C10 : ∀ (f : Strtof) (lines : List Line) (b : ℕ → Atom) (st : FileState),
    processFile f lines ⟨b, 0, []⟩ = .ok st →
      (st.counter ≤ MAX_ATOMS → ∀ w ∈ st.writes, w < MAX_ATOMS) ∧
      (MAX_ATOMS < st.counter → ∃ w ∈ st.writes, MAX_ATOMS ≤ w) := by
  intro f lines b st h
  have hw : st.writes = List.range st.counter := processFile_writes f lines rfl h
  constructor
  · intro hle w hwmem
    rw [hw] at hwmem
    have := List.mem_range.mp hwmem
    omega
  · intro hgt
    exact ⟨MAX_ATOMS, by rw [hw]; exact List.mem_range.mpr hgt, le_refl _⟩

/-- Witness for C10 at a concrete successful one-line run. -/
theorem claim_C10_witness :
    processFile strtof1 [line61] ⟨buf0, 0, []⟩ =
      .ok ⟨Function.update buf0 0 ⟨1, 1, 1⟩, 1, [0]⟩ ∧
    ∀ w ∈ (FileState.mk (Function.update buf0 0 ⟨1, 1, 1⟩) 1 [0]).writes, w < MAX_ATOMS := by
  have h : processFile strtof1 [line61] ⟨buf0, 0, []⟩ =
      .ok ⟨Function.update buf0 0 ⟨1, 1, 1⟩, 1, [0]⟩ := rfl
  exact ⟨h, (claim_C10 strtof1 [line61] buf0 _ h).1 (by decide)⟩

end AnalyzeProtein
